import Mathlib

/-!
# Verification of the tracktui application core

Shallow embedding of `src/tracktui/src/main.rs`: the application state
machine (view modes, the Insert input sub-mode, table navigation and the
delete-confirmation workflow) and the CSV persistence round-trip.

Modelling conventions:
* Point coordinates are `ℚ`.  The reference stores `f64`; every value the
  UI can produce comes from parsing a buffer of at most five characters
  drawn from digits, '.' and '-', and all such values are finite and are
  represented exactly here up to the f64 rounding of the reference, which
  is monotone and never reorders the values in play.
* Rust's `Vec::sort_by` with the comparator `a.0.partial_cmp(&b.0)` is a
  stable sort on the x components; it is modelled by `List.mergeSort`,
  which is stable, with the boolean order `leX`.
* The distinct status strings produced by the `format!` calls are
  modelled by the tagged type `StatusMsg`, one constructor per `format!`
  site, carrying the formatted arguments.
* Operations that can panic are modelled in `Option`, `none` standing
  for a panic: `Vec::remove` with an out-of-bounds index, and the
  overflow-checked `usize` subtraction `len() - 1` when `len() == 0`.
* `self.data_series[self.selected_serie]` indexing is modelled with
  `List.getD` / `List.set`; in every state the program reaches,
  `selected_serie` is `0` (it is never mutated) and `data_series` is
  non-empty after startup, so the total model agrees with the code.
-/

namespace Tracktui

open List

/-- A data point `(x, y)`, as in `Vec<(f64, f64)>`. -/
abbrev Point := ℚ × ℚ

/-- The sort key used by `serie.data.sort_by(|a, b| a.0.partial_cmp(&b.0).unwrap())`:
compare points by their x component only. -/
def leX (a b : Point) : Bool := decide (a.1 ≤ b.1)

/-- `struct DataSeries { name: String, data: Vec<(f64, f64)> }`. -/
structure DataSeries where
  name : String
  data : List Point
deriving DecidableEq, Repr

/-- `DataSeries::new()`: name `"Graph"`, empty data. -/
def DataSeries.new : DataSeries := ⟨"Graph", []⟩

/-- The view modes of `enum ViewMode`. -/
inductive ViewMode where
  | graph | table | menu | help
deriving DecidableEq, Repr

/-- `enum InputMode { Normal, Insert }`. -/
inductive InputMode where
  | normal | insert
deriving DecidableEq, Repr

/-- `enum InputField { X, Y }`. -/
inductive InputField where
  | x | y
deriving DecidableEq, Repr

/-- The distinct strings assigned to `status_msg`, one constructor per
`format!` site in the source, carrying the formatted arguments. -/
inductive StatusMsg where
  /-- `"h: help"` -/
  | help
  /-- `format!("Inserted point ({:.2}, {:.2})", x, y)` -/
  | inserted (x y : ℚ)
  /-- `"Error: enter valid numbers for x and y"` -/
  | insertError
  /-- `format!("Could not load data.csv: {}", e)` -/
  | loadError (e : String)
  /-- `format!("Could not write to data.csv (Press any ket to exit): {}", e)` -/
  | writeError (e : String)
deriving DecidableEq, Repr

/-- The key intents the handlers distinguish (`crossterm::event::KeyCode`
restricted to the variants the source matches on). -/
inductive Key where
  | char (c : Char)
  | up | down | left | right
  | tab | enter | esc | backspace
deriving DecidableEq, Repr

/-- `struct App`, keeping the fields the core state machine reads or
writes.  `table_selected` models `TableState::selected()`. -/
structure App where
  mode : ViewMode
  data_series : List DataSeries
  selected_serie : Nat
  input_mode : InputMode
  input_field : InputField
  input_x : String
  input_y : String
  status_msg : StatusMsg
  table_selected : Option Nat
  confirm_delete : Bool
  confirm_idx : Nat
  exit : Bool
deriving DecidableEq, Repr

/-- `App::new()`: Graph mode, no series yet, `selected_serie = 0`,
`status_msg = "h: help"`, all other fields at their `Default`. -/
def App.new : App :=
  { mode := .graph
    data_series := []
    selected_serie := 0
    input_mode := .normal
    input_field := .x
    input_x := ""
    input_y := ""
    status_msg := .help
    table_selected := none
    confirm_delete := false
    confirm_idx := 0
    exit := false }

/-- `self.data_series[self.selected_serie]` (total model of the indexing,
see the module comment). -/
def App.serie (a : App) : DataSeries :=
  a.data_series.getD a.selected_serie DataSeries.new

/-- Write back the active series with its data replaced. -/
def App.setSerieData (a : App) (d : List Point) : App :=
  { a with data_series := a.data_series.set a.selected_serie { a.serie with name := a.serie.name, data := d } }

/-! ## Numeric parsing

`self.input_x.parse::<f64>()` on the strings the Insert sub-mode can
build: characters drawn from ASCII digits, '.' and '-' only.  On that
alphabet Rust's grammar accepts an optional leading '-', then a run of
digits with at most one '.', containing at least one digit. -/

/-- Value of a run of ASCII digits. -/
def digitsVal (l : List Char) : Nat :=
  l.foldl (fun acc c => 10 * acc + (c.toNat - 48)) 0

/-- Parse an unsigned mantissa made of digits and at most one '.'
(with at least one digit), exactly, into `ℚ`. -/
def parseMantissa (l : List Char) : Option ℚ :=
  if (l.all fun c => c.isDigit || c == '.') ∧ l.count '.' ≤ 1 ∧ l.any Char.isDigit then
    let intPart := l.takeWhile (fun c => c ≠ '.')
    let fracPart := (l.dropWhile (fun c => c ≠ '.')).drop 1
    some ((digitsVal intPart : ℚ) + (digitsVal fracPart : ℚ) / (10 : ℚ) ^ fracPart.length)
  else none

/-- `str::parse::<f64>` on the buffer alphabet: optional leading '-',
then a mantissa. -/
def parseNum (s : String) : Option ℚ :=
  match s.data with
  | '-' :: rest => (parseMantissa rest).map (fun q => -q)
  | l => parseMantissa l

/-! ## Graph view: the Insert sub-machine -/

/-- `App::cycle_field`. -/
def App.cycle_field (a : App) : App :=
  { a with input_field := match a.input_field with | .x => .y | .y => .x }

/-- The data-level effect of `try_insert_point`'s success path:
`serie.data.push((x, y))` followed by the stable
`sort_by(|a, b| a.0.partial_cmp(&b.0).unwrap())`. -/
def insert_point (d : List Point) (p : Point) : List Point :=
  (d ++ [p]).mergeSort leX

/-- `App::try_insert_point`. -/
def App.try_insert_point (a : App) : App :=
  match parseNum a.input_x, parseNum a.input_y with
  | some x, some y =>
      let a' := a.setSerieData (insert_point a.serie.data (x, y))
      { a' with input_mode := .normal
                input_x := ""
                input_y := ""
                status_msg := .inserted x y }
  | _, _ => { a with status_msg := .insertError }

/-- The `InputMode::Normal` arm of `App::handle_graph_input`. -/
def App.handle_graph_normal (a : App) (k : Key) : App :=
  match k with
  | .char c =>
      if c = 'q' then { a with exit := true }
      else if c = 'h' then { a with mode := .help }
      else if c = 'm' then { a with mode := .menu }
      else if c = 't' then { a with mode := .table }
      else if c = 'i' then
        { a with input_mode := .insert
                 input_field := .x
                 input_x := ""
                 input_y := ""
                 status_msg := .help }
      else a
  | .esc => { a with mode := .menu }
  | _ => a

/-- The `InputMode::Insert` arm of `App::handle_graph_input`. -/
def App.handle_graph_insert (a : App) (k : Key) : App :=
  match k with
  | .char c =>
      if c.isDigit ∨ c = '.' ∨ c = '-' then
        match a.input_field with
        | .x => if a.input_x.length < 5 then { a with input_x := a.input_x.push c } else a
        | .y => if a.input_y.length < 5 then { a with input_y := a.input_y.push c } else a
      else a
  | .backspace =>
      match a.input_field with
      | .x => { a with input_x := a.input_x.dropRight 1 }
      | .y => { a with input_y := a.input_y.dropRight 1 }
  | .tab => a.cycle_field
  | .enter =>
      let a' := a.cycle_field
      if a'.input_y ≠ "" ∧ a'.input_x ≠ "" then a'.try_insert_point else a'
  | .left => { a with input_field := .x }
  | .right => { a with input_field := .y }
  | .esc =>
      { a with input_mode := .normal
               input_x := ""
               input_y := ""
               status_msg := .help }
  | _ => a

/-- `App::handle_graph_input`.  This handler never panics. -/
def App.handle_graph_input (a : App) (k : Key) : App :=
  match a.input_mode with
  | .normal => a.handle_graph_normal k
  | .insert => a.handle_graph_insert k

/-! ## Table view: navigation and delete confirmation -/

/-- `App::select_previous` (bound to Down / 'j'; it moves the selection
one row down, wrapping from the last row to row 0).  `none` models the
panic of the overflow-checked `data.len() - 1` when the series is empty. -/
def App.select_previous (a : App) : Option App :=
  match a.table_selected with
  | some i =>
      if a.serie.data.length = 0 then none
      else
        some { a with table_selected := some (if a.serie.data.length - 1 ≤ i then 0 else i + 1) }
  | none => some { a with table_selected := some 0 }

/-- `App::select_next` (bound to Up / 'k'; it moves the selection one
row up, wrapping from row 0 to the last row).  `none` models the panic
of the overflow-checked `data.len() - 1` when the series is empty. -/
def App.select_next (a : App) : Option App :=
  match a.table_selected with
  | some i =>
      if i = 0 then
        if a.serie.data.length = 0 then none
        else some { a with table_selected := some (a.serie.data.length - 1) }
      else some { a with table_selected := some (i - 1) }
  | none => some { a with table_selected := some 0 }

/-- `App::cycle_confirm_idx`. -/
def App.cycle_confirm_idx (a : App) : App :=
  { a with confirm_idx := match a.confirm_idx with | 1 => 0 | 0 => 1 | _ => 0 }

/-- The `confirm_delete == false` arm of `App::handle_table_input`. -/
def App.handle_table_browse (a : App) (k : Key) : Option App :=
  match k with
  | .char c =>
      if c = 'q' then some { a with exit := true }
      else if c = 'g' then some { a with mode := .graph }
      else if c = 'm' then some { a with mode := .menu }
      else if c = 'h' then some { a with mode := .help }
      else if c = 'k' then a.select_next
      else if c = 'j' then a.select_previous
      else if c = 'd' then some { a with confirm_delete := true }
      else some a
  | .up => a.select_next
  | .down => a.select_previous
  | .esc => some { a with mode := .menu }
  | _ => some a

/-- The `confirm_delete == true` arm of `App::handle_table_input`.
`none` models the panic of
`self.data_series[self.selected_serie].data.remove(i)` when `i` is out
of bounds. -/
def App.handle_table_confirm (a : App) (k : Key) : Option App :=
  match k with
  | .esc => some { a with confirm_delete := false }
  | .left => some { a with confirm_idx := 0 }
  | .right => some { a with confirm_idx := 1 }
  | .tab => some a.cycle_confirm_idx
  | .enter =>
      if a.confirm_idx = 0 then
        match a.table_selected with
        | some i =>
            if i < a.serie.data.length then
              some { a.setSerieData (a.serie.data.eraseIdx i) with confirm_delete := false }
            else none
        | none => some a
      else some { a with confirm_delete := false }
  | _ => some a

/-- `App::handle_table_input`. -/
def App.handle_table_input (a : App) (k : Key) : Option App :=
  match a.confirm_delete with
  | false => a.handle_table_browse k
  | true => a.handle_table_confirm k

/-- `App::handle_help_input`. -/
def App.handle_help_input (a : App) (k : Key) : App :=
  match k with
  | .char c =>
      if c = 'q' then { a with exit := true }
      else if c = 'g' then { a with mode := .graph }
      else if c = 'm' then { a with mode := .menu }
      else if c = 't' then { a with mode := .table }
      else a
  | .esc => { a with mode := .menu }
  | _ => a

/-- `App::handle_menu_input`. -/
def App.handle_menu_input (a : App) (k : Key) : App :=
  match k with
  | .char c =>
      if c = 'q' then { a with exit := true }
      else if c = 'g' then { a with mode := .graph }
      else if c = 't' then { a with mode := .table }
      else if c = 'h' then { a with mode := .help }
      else a
  | _ => a

/-- `App::handle_events`' dispatch on the current mode for a key press. -/
def App.handle_key (a : App) (k : Key) : Option App :=
  match a.mode with
  | .graph => some (a.handle_graph_input k)
  | .table => a.handle_table_input k
  | .menu => some (a.handle_menu_input k)
  | .help => some (a.handle_help_input k)

/-! ## Persistence: `write_csv` / `read_csv`

A CSV data row is `(series_name, x, y)`; the header row and the textual
encoding of the fields are the csv crate's concern (Rust's `f64`
to-string / parse round-trip is exact). -/

/-- A data row of the CSV file. -/
abbrev Row := String × ℚ × ℚ

/-- `App::write_csv`: one row per point, in the store's series order and
each series' point order. -/
def write_csv (series : List DataSeries) : List Row :=
  series.flatMap fun s => s.data.map fun p => (s.name, p.1, p.2)

/-- The per-name accumulation of `read_csv`'s `HashMap`: rows are pushed
into the entry for their name in file order. -/
def pointsOf (rows : List Row) (n : String) : List Point :=
  (rows.filter fun r => r.1 == n).map fun r => (r.2.1, r.2.2)

/-- The distinct names occurring in the rows, in first-seen order (the
key set of the `HashMap`). -/
def distinctNames (rows : List Row) : List String :=
  rows.foldl (fun ns r => if r.1 ∈ ns then ns else ns ++ [r.1]) []

/-- `App::read_csv` on already-parsed rows: group the rows by name and
sort each group's points by x (stable `sort_by`, modelled as
`mergeSort leX`).  The `HashMap`'s iteration order is unspecified, so
the order of distinct names it yields is a parameter `order`. -/
def read_csv (rows : List Row) (order : List String) : List DataSeries :=
  order.map fun n => ⟨n, (pointsOf rows n).mergeSort leX⟩

/-- The startup portion of `App::run`: attempt the load; on failure set
the diagnostic status and push a default series; afterwards push a
default series if the store is still empty.  `res` is the outcome of
reading and parsing `data.csv` (`Except.error e` for a missing or
unreadable file with error text `e`). -/
def startup_state (res : Except String (List Row)) (order : List String) : App :=
  let a0 := App.new
  let a1 := match res with
    | .error e =>
        { a0 with status_msg := .loadError e
                  data_series := a0.data_series ++ [DataSeries.new] }
    | .ok rows => { a0 with data_series := a0.data_series ++ read_csv rows order }
  if a1.data_series.isEmpty then { a1 with data_series := a1.data_series ++ [DataSeries.new] }
  else a1

/-- The states the application can reach from startup by key presses
(`none` from a handler is a panic and reaches no state). -/
inductive Reachable : App → Prop where
  | init (res : Except String (List Row)) (order : List String) :
      Reachable (startup_state res order)
  | step {a a' : App} (k : Key) : Reachable a → a.handle_key k = some a' → Reachable a'

/-! ## The sort order `leX` is a total preorder -/

theorem leX_trans : ∀ (a b c : Point), leX a b → leX b c → leX a c := by
  intro a b c hab hbc
  simp only [leX, decide_eq_true_eq] at *
  exact le_trans hab hbc

theorem leX_total : ∀ (a b : Point), leX a b || leX b a := by
  intro a b
  simp only [leX, Bool.or_eq_true, decide_eq_true_eq]
  exact le_total a.1 b.1

/-- Stability of the sort the source uses (`Vec::sort_by` is stable,
modelled by `mergeSort`): the points with any fixed x value come out in
the same relative order they went in. -/
theorem filter_fst_mergeSort (l : List Point) (x0 : ℚ) :
    (l.mergeSort leX).filter (fun p => p.1 = x0) = l.filter (fun p => p.1 = x0) := by
  set f := l.filter (fun p => decide (p.1 = x0)) with hf
  have hmem : ∀ p ∈ f, p.1 = x0 := by
    intro p hp
    simpa using List.of_mem_filter hp
  have hpair : f.Pairwise (fun a b => leX a b) := by
    apply List.pairwise_of_forall_mem_list
    intro a ha b hb
    simp only [leX, decide_eq_true_eq]
    rw [hmem a ha, hmem b hb]
  have h1 : List.Sublist f (l.mergeSort leX) :=
    List.sublist_mergeSort leX_trans leX_total hpair (List.filter_sublist l)
  have h2 : List.Sublist f ((l.mergeSort leX).filter (fun p => decide (p.1 = x0))) := by
    have := h1.filter (fun p => decide (p.1 = x0))
    rwa [List.filter_eq_self.mpr (fun a ha => by simpa using hmem a ha)] at this
  have hperm : List.Perm ((l.mergeSort leX).filter (fun p => decide (p.1 = x0))) f :=
    (List.mergeSort_perm l leX).filter _
  exact (h2.eq_of_length hperm.length_eq.symm).symm

/-- One committed insertion leaves the series data sorted by x. -/
theorem sorted_insert_point (d : List Point) (p : Point) :
    (insert_point d p).Sorted (fun a b : Point => a.1 ≤ b.1) := by
  have h := List.sorted_mergeSort leX_trans leX_total (d ++ [p])
  exact h.imp (fun hab => by simpa [leX] using hab)

/-- C1: for every sequence of valid point insertions through the commit
path (`try_insert_point`'s push-then-stable-sort, `insert_point`),
starting from any x-sorted series data, the resulting data is sorted
non-decreasing by x, and for every x value the points carrying it appear
in insertion order (the subsequence with x-component `x0` of the result
is exactly the subsequence with x-component `x0` of the input sequence,
after the pre-existing ones). -/
theorem C1_insert_sorted_stable (d0 ps : List Point) (x0 : ℚ)
    (h : d0.Sorted (fun a b : Point => a.1 ≤ b.1)) :
    (ps.foldl insert_point d0).Sorted (fun a b : Point => a.1 ≤ b.1) ∧
    (ps.foldl insert_point d0).filter (fun p => p.1 = x0) =
      (d0 ++ ps).filter (fun p => p.1 = x0) := by
  induction ps generalizing d0 with
  | nil => simpa using h
  | cons p ps ih =>
    have hstep := ih (insert_point d0 p) (sorted_insert_point d0 p)
    refine ⟨by simpa using hstep.1, ?_⟩
    have h2 := hstep.2
    simp only [List.foldl_cons]
    rw [h2, List.filter_append]
    simp only [insert_point]
    rw [filter_fst_mergeSort]
    simp only [List.filter_append, List.filter_cons]
    split <;> simp

/-- Witness for C1 at the concrete insertion sequence
`(1,2), (1,3), (0,5)` into an initially empty series, tracking the tied
x value `1`. -/
theorem C1_insert_sorted_stable_witness :
    ([] : List Point).Sorted (fun a b : Point => a.1 ≤ b.1) ∧
    (([((1 : ℚ), (2 : ℚ)), (1, 3), (0, 5)].foldl insert_point []).Sorted
        (fun a b : Point => a.1 ≤ b.1) ∧
      ([((1 : ℚ), (2 : ℚ)), (1, 3), (0, 5)].foldl insert_point []).filter
          (fun p => p.1 = (1 : ℚ)) =
        (([] : List Point) ++ [((1 : ℚ), (2 : ℚ)), (1, 3), (0, 5)]).filter
          (fun p => p.1 = (1 : ℚ))) :=
  ⟨by simp, C1_insert_sorted_stable [] [(1, 2), (1, 3), (0, 5)] 1 (by simp)⟩

/-! ## C7: startup fallback on a missing or unreadable file -/

/-- C7: whenever reading `data.csv` fails at startup, the application
starts with a store holding exactly one series, named `"Graph"` with
empty data, and the status text is the load-failure diagnostic. -/
theorem C7_load_failure (e : String) (order : List String) :
    (startup_state (.error e) order).data_series = [DataSeries.new] ∧
    DataSeries.new.name = "Graph" ∧ DataSeries.new.data = [] ∧
    (startup_state (.error e) order).status_msg = .loadError e :=
  ⟨rfl, rfl, rfl, rfl⟩

/-! ## C3: commit with an empty or unparseable buffer -/

/-- `try_insert_point` on a parse failure only sets the error status. -/
theorem try_insert_point_fail (a : App)
    (hp : parseNum a.input_x = none ∨ parseNum a.input_y = none) :
    a.try_insert_point = { a with status_msg := .insertError } := by
  unfold App.try_insert_point
  rcases hp with hp | hp
  · rw [hp]
  · cases hpx : parseNum a.input_x <;> rw [hp]

/-- C3 (amended): in Insert sub-mode, a commit intent whose X or Y
buffer fails to parse (empty included) leaves every series' data
unchanged, keeps the machine in Insert, and retains both buffers; the
error status text is emitted only when both buffers are non-empty —
when either buffer is empty the commit is silently ignored and the
status text is left unchanged. -/
theorem C3_invalid_commit (a : App) (hm : a.input_mode = .insert)
    (hp : parseNum a.input_x = none ∨ parseNum a.input_y = none) :
    (a.handle_graph_input .enter).data_series = a.data_series ∧
    (a.handle_graph_input .enter).input_mode = .insert ∧
    (a.handle_graph_input .enter).input_x = a.input_x ∧
    (a.handle_graph_input .enter).input_y = a.input_y ∧
    ((a.input_x ≠ "" ∧ a.input_y ≠ "") →
        (a.handle_graph_input .enter).status_msg = .insertError) ∧
    ((a.input_x = "" ∨ a.input_y = "") →
        (a.handle_graph_input .enter).status_msg = a.status_msg) := by
  simp only [App.handle_graph_input, hm, App.handle_graph_insert]
  by_cases hx : a.input_x = "" <;> by_cases hy : a.input_y = "" <;>
    simp_all [App.cycle_field, try_insert_point_fail, hm]

/-- Insert sub-mode with an empty X buffer, a non-empty Y buffer and the
idle status text. -/
def appC3 : App :=
  { App.new with
      input_mode := .insert
      input_y := "1"
      data_series := [DataSeries.new] }

/-- C3 counterexample: with the X buffer empty, a commit intent emits no
error status text at all — the status stays at its previous value
(`"h: help"`), refuting the claim that a failing commit emits an error
status text. -/
theorem C3_counterexample :
    appC3.input_mode = .insert ∧ appC3.input_x = "" ∧
    (appC3.handle_graph_input .enter).status_msg = .help ∧
    (appC3.handle_graph_input .enter).status_msg ≠ .insertError := by decide

/-- Insert sub-mode with the unparseable X buffer `"-"` and the
parseable Y buffer `"1"`, both non-empty. -/
def appC3w : App :=
  { App.new with
      input_mode := .insert
      input_x := "-"
      input_y := "1"
      data_series := [DataSeries.new] }

/-- Witness for C3 at a state with both buffers non-empty and the X
buffer unparseable. -/
theorem C3_invalid_commit_witness :
    (appC3w.input_mode = .insert ∧
      (parseNum appC3w.input_x = none ∨ parseNum appC3w.input_y = none)) ∧
    ((appC3w.handle_graph_input .enter).data_series = appC3w.data_series ∧
     (appC3w.handle_graph_input .enter).input_mode = .insert ∧
     (appC3w.handle_graph_input .enter).input_x = appC3w.input_x ∧
     (appC3w.handle_graph_input .enter).input_y = appC3w.input_y ∧
     ((appC3w.input_x ≠ "" ∧ appC3w.input_y ≠ "") →
        (appC3w.handle_graph_input .enter).status_msg = .insertError) ∧
     ((appC3w.input_x = "" ∨ appC3w.input_y = "") →
        (appC3w.handle_graph_input .enter).status_msg = appC3w.status_msg)) :=
  ⟨⟨rfl, Or.inl (by decide)⟩, C3_invalid_commit appC3w rfl (Or.inl (by decide))⟩

/-! ## C4: navigation wraparound on a non-empty series

The key bindings: Down / 'j' is the "next row" intent (it calls
`select_previous`, which moves the selection one row down, wrapping from
the last row to row 0); Up / 'k' is the "previous row" intent (it calls
`select_next`, wrapping from row 0 to the last row).  The two function
names in the source are swapped relative to their visual direction. -/

/-- C4: on a non-empty active series, a "next" intent (Down) from the
last row selects row 0; a "previous" intent (Up) from row 0 selects the
last row; either intent with no row selected selects row 0. -/
theorem C4_wraparound (a : App) (h0 : a.confirm_delete = false)
    (hne : a.serie.data ≠ []) :
    (a.table_selected = some (a.serie.data.length - 1) →
      (a.handle_table_input .down).map App.table_selected = some (some 0)) ∧
    (a.table_selected = some 0 →
      (a.handle_table_input .up).map App.table_selected =
        some (some (a.serie.data.length - 1))) ∧
    (a.table_selected = none →
      (a.handle_table_input .down).map App.table_selected = some (some 0) ∧
      (a.handle_table_input .up).map App.table_selected = some (some 0)) := by
  have hlen : a.serie.data.length ≠ 0 := fun h => hne (List.length_eq_zero.mp h)
  simp only [App.handle_table_input, h0, App.handle_table_browse]
  refine ⟨?_, ?_, ?_⟩
  · intro hsel; simp [App.select_previous, hsel, hlen]
  · intro hsel; simp [App.select_next, hsel, hlen]
  · intro hsel
    constructor <;> simp [App.select_previous, App.select_next, hsel, hlen]

/-- Table mode over a three-point series with the last row selected. -/
def appC4 : App :=
  { App.new with
      mode := .table
      data_series := [⟨"Graph", [(1, 1), (2, 2), (3, 3)]⟩]
      table_selected := some 2 }

/-- Witness for C4 on a three-row series with the last row selected. -/
theorem C4_wraparound_witness :
    (appC4.confirm_delete = false ∧ appC4.serie.data ≠ []) ∧
    ((appC4.table_selected = some (appC4.serie.data.length - 1) →
      (appC4.handle_table_input .down).map App.table_selected = some (some 0)) ∧
    (appC4.table_selected = some 0 →
      (appC4.handle_table_input .up).map App.table_selected =
        some (some (appC4.serie.data.length - 1))) ∧
    (appC4.table_selected = none →
      (appC4.handle_table_input .down).map App.table_selected = some (some 0) ∧
      (appC4.handle_table_input .up).map App.table_selected = some (some 0))) :=
  ⟨⟨rfl, by decide⟩, C4_wraparound appC4 rfl (by decide)⟩

/-! ## C5: navigation on an empty series -/

/-- Table mode over an empty series, nothing selected. -/
def appC5 : App :=
  { App.new with
      mode := .table
      data_series := [DataSeries.new] }

/-- C5, evaluated at the failing input: with the active series empty and
no row selected, both navigation intents set the selection to row 0 of
the empty table rather than leaving it unset; and with a (stale)
selection present withal, the overflow-checked `data.len() - 1`
underflows (the `none` result models that panic). -/
theorem C5_code_eval :
    appC5.serie.data = [] ∧ appC5.table_selected = none ∧
    appC5.handle_table_input .down = some { appC5 with table_selected := some 0 } ∧
    appC5.handle_table_input .up = some { appC5 with table_selected := some 0 } ∧
    ({ appC5 with table_selected := some 0 }.handle_table_input .down) = none := by
  decide

/-! ## C6: confirming a delete with a stale selection -/

/-- Delete confirmation active with choice Delete and row 0 selected,
over an empty series (the state left behind after deleting the only
point and requesting a delete again). -/
def appC6 : App :=
  { App.new with
      mode := .table
      data_series := [DataSeries.new]
      table_selected := some 0
      confirm_delete := true
      confirm_idx := 0 }

/-- C6, evaluated at the failing input: confirming a delete with choice
Delete while the selected row index is not below the series length
reaches `Vec::remove` with an out-of-bounds index, which panics — the
`none` result models that crash, against the claim's recoverable
no-op. -/
theorem C6_code_eval :
    appC6.confirm_delete = true ∧ appC6.confirm_idx = 0 ∧
    appC6.table_selected = some 0 ∧ appC6.serie.data.length ≤ 0 ∧
    appC6.handle_table_input .enter = none := by decide

/-! ## C8: delete request with no row selected -/

/-- Table mode, confirmation inactive, no row selected. -/
def appC8 : App :=
  { App.new with
      mode := .table
      data_series := [DataSeries.new] }

/-- C8 counterexample: a delete-request intent with no row selected does
enter the delete-confirmation sub-state, refuting the claim that it is
not actionable. -/
theorem C8_counterexample :
    appC8.table_selected = none ∧ appC8.confirm_delete = false ∧
    (appC8.handle_table_input (.char 'd')).map App.confirm_delete = some true := by
  decide

/-- C8 (amended): a delete-request intent always enters the
delete-confirmation sub-state, whether or not a row is selected; but
confirming with choice Delete while no row is selected deletes nothing
(the state is returned unchanged, the sub-state staying active). -/
theorem C8_delete_request (a : App) (h : a.confirm_delete = false) :
    a.handle_table_input (.char 'd') = some { a with confirm_delete := true } ∧
    (∀ b : App, b.confirm_delete = true → b.confirm_idx = 0 → b.table_selected = none →
      b.handle_table_input .enter = some b) := by
  constructor
  · simp [App.handle_table_input, h, App.handle_table_browse]
  · intro b hb hib hsb
    simp [App.handle_table_input, hb, App.handle_table_confirm, hib, hsb]

/-- Delete confirmation active with choice Delete and no row selected. -/
def appC8b : App :=
  { App.new with
      mode := .table
      data_series := [DataSeries.new]
      confirm_delete := true }

/-- Witness for C8 (amended) at concrete states. -/
theorem C8_delete_request_witness :
    appC8.handle_table_input (.char 'd') = some { appC8 with confirm_delete := true } ∧
    appC8b.handle_table_input .enter = some appC8b :=
  ⟨(C8_delete_request appC8 rfl).1, (C8_delete_request appC8 rfl).2 appC8b rfl rfl rfl⟩

/-! ## C9: the highlighted choice on entering delete confirmation -/

/-- Table mode, confirmation inactive, with the choice index left at 1
(Cancel) by an earlier visit to the sub-state. -/
def appC9 : App :=
  { App.new with
      mode := .table
      data_series := [DataSeries.new]
      confirm_idx := 1 }

/-- C9 counterexample: entering the delete-confirmation sub-state with
the choice index previously left at 1 (Cancel) keeps it at 1 — the
highlighted choice is not reset to Delete (index 0). -/
theorem C9_counterexample :
    appC9.confirm_delete = false ∧ appC9.confirm_idx = 1 ∧
    appC9.handle_table_input (.char 'd') = some { appC9 with confirm_delete := true } ∧
    (appC9.handle_table_input (.char 'd')).map App.confirm_idx = some 1 := by decide

/-- C9 (amended): a transition into the delete-confirmation sub-state
preserves whatever choice index was last set (the initial value being
Delete, index 0); the choice is changed only by the Left/Right/Tab
intents inside the sub-state. -/
theorem C9_choice_preserved (a : App) (h : a.confirm_delete = false) :
    (a.handle_table_input (.char 'd')).map App.confirm_idx = some a.confirm_idx ∧
    (a.handle_table_input (.char 'd')).map App.confirm_delete = some true ∧
    App.new.confirm_idx = 0 := by
  refine ⟨?_, ?_, rfl⟩ <;> simp [App.handle_table_input, h, App.handle_table_browse]

/-- Witness for C9 (amended) at a state with the choice index at 1. -/
theorem C9_choice_preserved_witness :
    (appC9.handle_table_input (.char 'd')).map App.confirm_idx = some appC9.confirm_idx ∧
    (appC9.handle_table_input (.char 'd')).map App.confirm_delete = some true ∧
    App.new.confirm_idx = 0 :=
  C9_choice_preserved appC9 rfl

/-! ## C2: the persistence round trip -/

/-- The multiset (as a list) of points a store associates with a name:
the concatenated data of its series carrying that name. -/
def pointsOfStore (S : List DataSeries) (n : String) : List Point :=
  (S.filter fun s => s.name == n).flatMap fun s => s.data

/-- The output of the source's stable sort is sorted by x. -/
theorem sorted_mergeSort_leX (l : List Point) :
    (l.mergeSort leX).Sorted (fun a b : Point => a.1 ≤ b.1) :=
  (List.sorted_mergeSort leX_trans leX_total l).imp (fun hab => by simpa [leX] using hab)

theorem mem_distinctNames_aux (rows : List Row) (n : String) :
    ∀ acc : List String,
      (n ∈ rows.foldl (fun ns r => if r.1 ∈ ns then ns else ns ++ [r.1]) acc ↔
        n ∈ acc ∨ n ∈ rows.map Prod.fst) := by
  induction rows with
  | nil => intro acc; simp
  | cons r rows ih =>
    intro acc
    simp only [List.foldl_cons, List.map_cons, List.mem_cons]
    by_cases h : r.1 ∈ acc
    · rw [if_pos h, ih]
      constructor
      · tauto
      · rintro (hacc | heq | hrows)
        · exact Or.inl hacc
        · exact Or.inl (heq ▸ h)
        · tauto
    · rw [if_neg h, ih]
      simp only [List.mem_append, List.mem_singleton]
      tauto

/-- A name is a key of the load-time grouping map iff some row carries it. -/
theorem mem_distinctNames (rows : List Row) (n : String) :
    n ∈ distinctNames rows ↔ n ∈ rows.map Prod.fst := by
  rw [distinctNames, mem_distinctNames_aux]
  simp

/-- The rows a saved store contributes to a name, read back in file
order, are exactly the store's points under that name in store order. -/
theorem pointsOf_write_csv (S : List DataSeries) (n : String) :
    pointsOf (write_csv S) n = pointsOfStore S n := by
  induction S with
  | nil => rfl
  | cons s S ih =>
    by_cases hn : s.name = n <;>
      simp_all [pointsOf, pointsOfStore, write_csv, List.filter_cons,
        List.filter_append, List.filter_map, Function.comp_def, hn]

/-- C2 (amended): for every store whose series each hold at least one
point, saving and re-loading — under any iteration order of the
grouping map — yields a store with the same set of series names; each
loaded series' data is a permutation of the points the original store
holds under that name, and is sorted non-decreasing by x.  (A series
with no points writes no rows, so it is not representable in the flat
format; the non-emptiness hypothesis is forced by `C2_counterexample`.) -/
theorem C2_roundtrip (S : List DataSeries) (order : List String)
    (hne : ∀ s ∈ S, s.data ≠ [])
    (hord : List.Perm order (distinctNames (write_csv S))) :
    (∀ n : String, n ∈ (read_csv (write_csv S) order).map DataSeries.name ↔
        n ∈ S.map DataSeries.name) ∧
    (∀ s' ∈ read_csv (write_csv S) order,
        List.Perm s'.data (pointsOfStore S s'.name) ∧
        s'.data.Sorted (fun a b : Point => a.1 ≤ b.1)) := by
  constructor
  · intro n
    have h1 : n ∈ (read_csv (write_csv S) order).map DataSeries.name ↔ n ∈ order := by
      simp [read_csv, List.map_map, Function.comp_def]
    rw [h1, hord.mem_iff, mem_distinctNames]
    simp only [write_csv, List.map_flatMap, List.mem_flatMap, List.mem_map]
    constructor
    · rintro ⟨s, hs, r, ⟨p, hp, rfl⟩, hn⟩
      exact ⟨s, hs, hn⟩
    · rintro ⟨s, hs, rfl⟩
      obtain ⟨p, hp⟩ := List.exists_mem_of_ne_nil _ (hne s hs)
      exact ⟨s, hs, (s.name, p.1, p.2), ⟨p, hp, rfl⟩, rfl⟩
  · intro s' hs'
    simp only [read_csv, List.mem_map] at hs'
    obtain ⟨n, hn, rfl⟩ := hs'
    refine ⟨?_, sorted_mergeSort_leX _⟩
    simpa [pointsOf_write_csv] using (List.mergeSort_perm (pointsOf (write_csv S) n) leX)

/-- The store of the spec's round-trip example:
`[("A", [(1,2),(3,4)]), ("B", [(0,0)])]`. -/
def storeC2 : List DataSeries := [⟨"A", [(1, 2), (3, 4)]⟩, ⟨"B", [(0, 0)]⟩]

/-- A grouping order different from the save order. -/
def orderC2 : List String := ["B", "A"]

/-- Witness for C2 (amended) on the spec's example store, with the
grouping map yielding the names in the opposite order. -/
theorem C2_roundtrip_witness :
    ((∀ s ∈ storeC2, s.data ≠ []) ∧
      List.Perm orderC2 (distinctNames (write_csv storeC2))) ∧
    ((∀ n : String, n ∈ (read_csv (write_csv storeC2) orderC2).map DataSeries.name ↔
        n ∈ storeC2.map DataSeries.name) ∧
     (∀ s' ∈ read_csv (write_csv storeC2) orderC2,
        List.Perm s'.data (pointsOfStore storeC2 s'.name) ∧
        s'.data.Sorted (fun a b : Point => a.1 ≤ b.1))) :=
  ⟨⟨by decide, by decide⟩, C2_roundtrip storeC2 orderC2 (by decide) (by decide)⟩

/-- A store holding one series with no points. -/
def storeC2empty : List DataSeries := [⟨"A", []⟩]

/-- C2 counterexample: a store with an empty series named `"A"` saves to
no rows at all, so the grouping map has no keys (its only possible
iteration order is the empty one) and loading yields a store with no
series — the set of series names is not preserved, refuting the claim
for stores with an empty series. -/
theorem C2_counterexample :
    write_csv storeC2empty = [] ∧
    distinctNames (write_csv storeC2empty) = [] ∧
    read_csv (write_csv storeC2empty) [] = [] ∧
    storeC2empty.map DataSeries.name = ["A"] := by decide

/-! ## C10: helper lemmas on the shapes of handler results -/

theorem select_next_eq (a a' : App) (h : a.select_next = some a') :
    ∃ sel, a' = { a with table_selected := sel } := by
  unfold App.select_next at h
  rcases hsel : a.table_selected with _ | i <;> rw [hsel] at h <;> dsimp only at h
  · exact ⟨some 0, (Option.some_injective _ h).symm⟩
  · split_ifs at h <;>
      first
        | exact ⟨_, (Option.some_injective _ h).symm⟩
        | cases h

theorem select_previous_eq (a a' : App) (h : a.select_previous = some a') :
    ∃ sel, a' = { a with table_selected := sel } := by
  unfold App.select_previous at h
  rcases hsel : a.table_selected with _ | i <;> rw [hsel] at h <;> dsimp only at h
  · exact ⟨some 0, (Option.some_injective _ h).symm⟩
  · split_ifs at h <;>
      first
        | exact ⟨_, (Option.some_injective _ h).symm⟩
        | cases h

theorem try_insert_point_mode (a : App) : a.try_insert_point.mode = a.mode := by
  unfold App.try_insert_point
  cases parseNum a.input_x <;> cases parseNum a.input_y <;> rfl

theorem try_insert_point_confirm (a : App) :
    a.try_insert_point.confirm_delete = a.confirm_delete := by
  unfold App.try_insert_point
  cases parseNum a.input_x <;> cases parseNum a.input_y <;> rfl

theorem handle_graph_normal_confirm (a : App) (k : Key) :
    (a.handle_graph_normal k).confirm_delete = a.confirm_delete := by
  cases k <;> simp only [App.handle_graph_normal] <;> (try split_ifs) <;> rfl

theorem handle_graph_insert_confirm (a : App) (k : Key) :
    (a.handle_graph_insert k).confirm_delete = a.confirm_delete := by
  cases k <;> simp only [App.handle_graph_insert] <;>
    (try split_ifs) <;> (try cases a.input_field) <;> (try split_ifs) <;>
    first
      | rfl
      | exact try_insert_point_confirm _

theorem handle_graph_insert_mode (a : App) (k : Key) :
    (a.handle_graph_insert k).mode = a.mode := by
  cases k <;> simp only [App.handle_graph_insert] <;>
    (try split_ifs) <;> (try cases a.input_field) <;> (try split_ifs) <;>
    first
      | rfl
      | exact try_insert_point_mode _

theorem handle_graph_normal_inv (a : App) (k : Key) (hn : a.input_mode = .normal)
    (hg : a.mode = .graph) :
    (a.handle_graph_normal k).input_mode = .insert →
      (a.handle_graph_normal k).mode = .graph := by
  cases k <;> simp only [App.handle_graph_normal] <;> (try split_ifs) <;>
    intro h <;> simp_all

theorem handle_table_browse_cases (a a' : App) (k : Key)
    (h : a.handle_table_browse k = some a') :
    (∃ m, a' = { a with mode := m }) ∨
    a' = { a with exit := true } ∨
    (∃ sel, a' = { a with table_selected := sel }) ∨
    a' = { a with confirm_delete := true } := by
  cases k <;> simp only [App.handle_table_browse] at h <;> (try split_ifs at h)
  all_goals
    first
      | exact Or.inr (Or.inr (Or.inl (select_next_eq a a' h)))
      | exact Or.inr (Or.inr (Or.inl (select_previous_eq a a' h)))
      | exact Or.inr (Or.inl (Option.some_injective _ h).symm)
      | exact Or.inr (Or.inr (Or.inr (Option.some_injective _ h).symm))
      | exact Or.inl ⟨_, (Option.some_injective _ h).symm⟩

theorem handle_table_confirm_cases (a a' : App) (k : Key)
    (h : a.handle_table_confirm k = some a') :
    (∃ cd, a' = { a with confirm_delete := cd }) ∨
    (∃ ci, a' = { a with confirm_idx := ci }) ∨
    (∃ ds cd, a' = { a with data_series := ds, confirm_delete := cd }) := by
  cases k <;> simp only [App.handle_table_confirm] at h
  case enter =>
    split_ifs at h
    · rcases hsel : a.table_selected with _ | i <;> rw [hsel] at h <;> dsimp only at h
      · refine Or.inl ⟨a.confirm_delete, ?_⟩
        rw [← hsel]
        exact (Option.some_injective _ h).symm
      · split_ifs at h
        rw [← hsel]
        refine Or.inr (Or.inr
          ⟨(a.setSerieData (a.serie.data.eraseIdx i)).data_series, false, ?_⟩)
        exact (Option.some_injective _ h).symm
    · exact Or.inl ⟨_, (Option.some_injective _ h).symm⟩
  all_goals
    first
      | exact Or.inl ⟨_, (Option.some_injective _ h).symm⟩
      | exact Or.inr (Or.inl ⟨_, (Option.some_injective _ h).symm⟩)

theorem handle_menu_input_mode (a : App) (k : Key) :
    (a.handle_menu_input k).input_mode = a.input_mode := by
  cases k <;> simp only [App.handle_menu_input] <;> (try split_ifs) <;> rfl

theorem handle_menu_confirm (a : App) (k : Key) :
    (a.handle_menu_input k).confirm_delete = a.confirm_delete := by
  cases k <;> simp only [App.handle_menu_input] <;> (try split_ifs) <;> rfl

theorem handle_help_input_mode (a : App) (k : Key) :
    (a.handle_help_input k).input_mode = a.input_mode := by
  cases k <;> simp only [App.handle_help_input] <;> (try split_ifs) <;> rfl

theorem handle_help_confirm (a : App) (k : Key) :
    (a.handle_help_input k).confirm_delete = a.confirm_delete := by
  cases k <;> simp only [App.handle_help_input] <;> (try split_ifs) <;> rfl

/-- The nesting discipline of the sub-states: the Insert input sub-mode
lives inside Graph mode, the delete-confirmation sub-state inside Table
mode. -/
def SubStateInv (a : App) : Prop :=
  (a.input_mode = .insert → a.mode = .graph) ∧
  (a.confirm_delete = true → a.mode = .table)

theorem startup_input_mode (res : Except String (List Row)) (order : List String) :
    (startup_state res order).input_mode = .normal := by
  unfold startup_state
  cases res <;> dsimp only <;> split <;> rfl

theorem startup_confirm (res : Except String (List Row)) (order : List String) :
    (startup_state res order).confirm_delete = false := by
  unfold startup_state
  cases res <;> dsimp only <;> split <;> rfl

theorem startup_inv (res : Except String (List Row)) (order : List String) :
    SubStateInv (startup_state res order) := by
  constructor
  · intro h
    rw [startup_input_mode] at h
    exact absurd h (by decide)
  · intro h
    rw [startup_confirm] at h
    exact absurd h (by decide)

/-- One key intent preserves the sub-state nesting discipline. -/
theorem handle_key_inv (a a' : App) (k : Key) (hinv : SubStateInv a)
    (h : a.handle_key k = some a') : SubStateInv a' := by
  obtain ⟨h1, h2⟩ := hinv
  unfold App.handle_key at h
  cases hm : a.mode <;> rw [hm] at h <;> dsimp only at h
  case graph =>
    have ha' := (Option.some_injective _ h).symm
    subst ha'
    unfold App.handle_graph_input
    cases hi : a.input_mode
    case normal =>
      constructor
      · exact handle_graph_normal_inv a k hi hm
      · intro hc
        rw [handle_graph_normal_confirm] at hc
        exact absurd (hm.symm.trans (h2 hc)) (by decide)
    case insert =>
      constructor
      · intro _
        exact (handle_graph_insert_mode a k).trans hm
      · intro hc
        rw [handle_graph_insert_confirm] at hc
        exact absurd (hm.symm.trans (h2 hc)) (by decide)
  case table =>
    unfold App.handle_table_input at h
    cases hc : a.confirm_delete <;> rw [hc] at h <;> dsimp only at h
    case false =>
      rcases handle_table_browse_cases a a' k h with ⟨m, rfl⟩ | rfl | ⟨sel, rfl⟩ | rfl
      · exact ⟨fun hins => absurd (hm.symm.trans (h1 hins)) (by decide),
          fun hcd => absurd (hc.symm.trans hcd) (by decide)⟩
      · exact ⟨fun hins => absurd (hm.symm.trans (h1 hins)) (by decide),
          fun hcd => absurd (hc.symm.trans hcd) (by decide)⟩
      · exact ⟨fun hins => absurd (hm.symm.trans (h1 hins)) (by decide),
          fun hcd => absurd (hc.symm.trans hcd) (by decide)⟩
      · exact ⟨fun hins => absurd (hm.symm.trans (h1 hins)) (by decide), fun _ => hm⟩
    case true =>
      rcases handle_table_confirm_cases a a' k h with ⟨cd, rfl⟩ | ⟨ci, rfl⟩ | ⟨ds, cd, rfl⟩ <;>
        exact ⟨fun hins => absurd (hm.symm.trans (h1 hins)) (by decide), fun _ => hm⟩
  case menu =>
    have ha' := (Option.some_injective _ h).symm
    subst ha'
    constructor
    · intro hins
      rw [handle_menu_input_mode] at hins
      exact absurd (hm.symm.trans (h1 hins)) (by decide)
    · intro hc2
      rw [handle_menu_confirm] at hc2
      exact absurd (hm.symm.trans (h2 hc2)) (by decide)
  case help =>
    have ha' := (Option.some_injective _ h).symm
    subst ha'
    constructor
    · intro hins
      rw [handle_help_input_mode] at hins
      exact absurd (hm.symm.trans (h1 hins)) (by decide)
    · intro hc2
      rw [handle_help_confirm] at hc2
      exact absurd (hm.symm.trans (h2 hc2)) (by decide)

/-- While a sub-state is active, no key intent changes the view mode. -/
theorem mode_freeze (a a' : App) (k : Key) (hinv : SubStateInv a)
    (hact : a.input_mode = .insert ∨ a.confirm_delete = true)
    (h : a.handle_key k = some a') : a'.mode = a.mode := by
  obtain ⟨h1, h2⟩ := hinv
  rcases hact with hi | hc
  · have hg := h1 hi
    unfold App.handle_key at h
    rw [hg] at h
    dsimp only at h
    have ha' := (Option.some_injective _ h).symm
    subst ha'
    unfold App.handle_graph_input
    cases hii : a.input_mode
    · rw [hii] at hi
      exact absurd hi (by decide)
    · exact handle_graph_insert_mode a k
  · have ht := h2 hc
    unfold App.handle_key at h
    rw [ht] at h
    dsimp only at h
    unfold App.handle_table_input at h
    rw [hc] at h
    dsimp only at h
    rcases handle_table_confirm_cases a a' k h with ⟨cd, rfl⟩ | ⟨ci, rfl⟩ | ⟨ds, cd, rfl⟩ <;>
      rfl

/-- C10: in every state reachable from startup by key intents, Insert is
active only in Graph mode and delete confirmation only in Table mode,
and while either sub-state is active no key intent changes the view
mode. -/
theorem C10_substate_invariant (a : App) (h : Reachable a) :
    SubStateInv a ∧
    ((a.input_mode = .insert ∨ a.confirm_delete = true) →
      ∀ (k : Key) (a' : App), a.handle_key k = some a' → a'.mode = a.mode) := by
  have hinv : SubStateInv a := by
    induction h with
    | init res order => exact startup_inv res order
    | step k hr hstep ih => exact handle_key_inv _ _ k ih hstep
  exact ⟨hinv, fun hact k a' hk => mode_freeze a a' k hinv hact hk⟩

/-- The startup state after a failed load of `data.csv`. -/
def appC10 : App := startup_state (.error "no file") []

/-- Witness for C10 at the startup state itself. -/
theorem C10_substate_invariant_witness :
    Reachable appC10 ∧
    (SubStateInv appC10 ∧
      ((appC10.input_mode = .insert ∨ appC10.confirm_delete = true) →
        ∀ (k : Key) (a' : App), appC10.handle_key k = some a' → a'.mode = appC10.mode)) :=
  ⟨Reachable.init _ _, C10_substate_invariant appC10 (Reachable.init _ _)⟩

end Tracktui
